import Mathlib

/-!
# Verification of the whisper-watch file-intake pipeline

Shallow embedding of `src/whisper-watch.py` (the only source file).
File names are modelled as `List Char`; the relevant fragment of
`pathlib.PurePath` (`suffix`, `stem`, `with_suffix`) is embedded below.
The directory state seen by the handler (watch dir, pending dir,
output folders, lock markers) is an explicit record, and
`TranscriptionHandler.on_created` is embedded as a state-transition
function that also returns the list of intermediate directory states
(so ordering properties can be stated about every moment of a run).
External fallible effects (mkdir, ffmpeg, whisper, file writes, OS-level
move failures) are driven by an `Env` record of injected results.
-/

namespace WhisperWatch

/-! ## Python `pathlib` name helpers

`PurePath.suffix` is `name[i:]` where `i = name.rfind('.')`, provided
`0 < i < len(name) - 1`, and `''` otherwise.  We compute it on the
reversed character list: `revSufAux` walks the reversed name up to and
including the first `'.'`. -/

/-- Walk a reversed name; return (reversed) the segment up to and
including the first dot, or `none` when the name has no dot. -/
def revSufAux : List Char → Option (List Char)
  | [] => none
  | c :: rest => if c = '.' then some ['.'] else (revSufAux rest).map (c :: ·)

/-- Python `PurePath.suffix` on a file name: the part from the last dot,
empty when the last dot is the first character, the last character, or
absent (`src/whisper-watch.py` uses `.suffix` at lines 49, 72, 93). -/
def pySuffix (cs : List Char) : List Char :=
  match revSufAux cs.reverse with
  | none => []
  | some srev => if 1 < srev.length ∧ srev.length < cs.length then srev.reverse else []

/-- Python `PurePath.stem`: the name with its suffix removed (line 84). -/
def pyStem (cs : List Char) : List Char :=
  cs.take (cs.length - (pySuffix cs).length)

/-- Python `PurePath.with_suffix s`: stem concatenated with the new
suffix (line 72: `input_file.with_suffix(input_file.suffix + '.processing')`). -/
def pyWithSuffix (cs s : List Char) : List Char :=
  pyStem cs ++ s

/-- The lock-marker name computed at line 72:
`with_suffix(suffix + '.processing')`. -/
def lockNameOf (n : List Char) : List Char :=
  pyWithSuffix n (pySuffix n ++ ".processing".toList)

/-- Line 45: `name.startswith('.') or name.startswith('._')`. -/
def isHiddenName (cs : List Char) : Bool :=
  (['.'].isPrefixOf cs) || (['.', '_'].isPrefixOf cs)

/-- Lower-casing applied by `.lower()` at lines 49 and 93. -/
def lowerName (cs : List Char) : List Char :=
  cs.map Char.toLower

/-- The tuple of accepted suffixes at line 49. -/
def supportedExts : List (List Char) :=
  [".mp4".toList, ".mkv".toList, ".avi".toList, ".mov".toList,
   ".mp3".toList, ".wav".toList, ".m4a".toList]

/-- The video-suffix list at line 93. -/
def videoExts : List (List Char) :=
  [".mp4".toList, ".mkv".toList, ".avi".toList, ".mov".toList]

/-- The audio-only suffixes (supported but not video). -/
def audioExts : List (List Char) :=
  [".mp3".toList, ".wav".toList, ".m4a".toList]

/-! ## CompletionWaiter: `wait_for_file_completion` (lines 15-30)

The loop samples `path.stat().st_size` once per iteration; iteration `k`
happens at elapsed time `k * interval` (the `while time.time() - start_time
< timeout` guard, idealising `stat` as instantaneous and `sleep` as exact),
so iteration `k` runs iff `k * interval < timeout`.  A sample is
`none` when `stat` raises `FileNotFoundError` (the file disappeared) and
`some size` otherwise.  `last_size` starts at `-1` (line 18), so it is
tracked as an `Int`. -/

/-- One loop of lines 21-30, with explicit fuel (the loop runs at most
`timeout` iterations once `0 < interval`, so the fuel never runs out). -/
def wfcLoop (samples : Nat → Option Nat) (timeout interval : Nat) :
    Int → Nat → Nat → Bool
  | _, _, 0 => false
  | lastSize, k, fuel + 1 =>
    if k * interval < timeout then
      match samples k with
      | none => false
      | some sz =>
        if (sz : Int) = lastSize ∧ 0 < sz then true
        else wfcLoop samples timeout interval (sz : Int) (k + 1) fuel
    else false

/-- `wait_for_file_completion(file_path, timeout, check_interval)`
(lines 15-30), over the stream of size observations of the path. -/
def wait_for_file_completion (samples : Nat → Option Nat)
    (timeout interval : Nat) : Bool :=
  wfcLoop samples timeout interval (-1) 0 (timeout + 1)

/-- The spec-side condition: before the timeout elapses, two consecutive
size samples are equal and strictly greater than zero, with the path
present at every sample up to that point. -/
def stablyWritten (samples : Nat → Option Nat) (timeout interval : Nat) : Prop :=
  ∃ m sz, 0 < m ∧ m * interval < timeout ∧
    (∀ j, j ≤ m → (samples j).isSome) ∧
    samples (m - 1) = samples m ∧ samples m = some sz ∧ 0 < sz

/-- Invariant characterisation of the loop from position `k` with current
`last_size` value `last`: the loop succeeds iff some in-time iteration `m ≥ k`
sees a positive size equal to the previous one (or to `last` when `m = k`),
with the file present at every sample from `k` to `m`. -/
def goodFrom (samples : Nat → Option Nat) (timeout interval : Nat)
    (last : Int) (k : Nat) : Prop :=
  ∃ m, k ≤ m ∧ m * interval < timeout ∧
    (∀ j, k ≤ j → j ≤ m → (samples j).isSome) ∧
    ∃ sz, samples m = some sz ∧ 0 < sz ∧
      ((m = k ∧ (sz : Int) = last) ∨ (k < m ∧ samples (m - 1) = samples m))

/-! ## Directory state

The state of the three configured directories as the handler sees them.
Regular files carry an abstract content identifier so that overwriting
(`os.rename` onto an existing destination file) is observable.  Lock
markers live in the watch directory; they are listed separately (their
names end in `.processing`, so they never collide with a media name
whose suffix passes the line-49 filter).  The pending directory is
assumed to hold only regular files (only this pipeline writes there),
and output folders are listed with the names of the files they contain. -/

structure FS where
  watch : List (List Char × Nat)
  locks : List (List Char)
  pending : List (List Char × Nat)
  outFolders : List (List Char × List (List Char))
deriving Repr, DecidableEq

/-- Content id of the file named `n` in a directory listing, if present. -/
def lookupFile (l : List (List Char × Nat)) (n : List Char) : Option Nat :=
  (l.find? (fun p => p.1 == n)).map (·.2)

def removeFile (l : List (List Char × Nat)) (n : List Char) :
    List (List Char × Nat) :=
  l.filter (fun p => p.1 != n)

/-- Place content `c` at name `n`, replacing any file already there
(the `os.rename` overwrite that `shutil.move` performs when the
destination is an existing regular file). -/
def setFile (l : List (List Char × Nat)) (n : List Char) (c : Nat) :
    List (List Char × Nat) :=
  removeFile l n ++ [(n, c)]

/-- `input_file.exists()` (lines 54 and 64): a path in the watch
directory exists iff a media file or a marker of that name is there. -/
def existsInWatch (fs : FS) (n : List Char) : Bool :=
  (lookupFile fs.watch n).isSome || fs.locks.contains n

def lookupFolder (fs : FS) (f : List Char) : Option (List (List Char)) :=
  (fs.outFolders.find? (fun p => p.1 == f)).map (·.2)

/-- Create the file `fname` inside output folder `f` (idempotent: an
existing file of that name is just overwritten). -/
def addToFolder (fs : FS) (f fname : List Char) : FS :=
  { fs with outFolders := fs.outFolders.map fun p =>
      if p.1 == f then (p.1, if p.2.contains fname then p.2 else p.2 ++ [fname])
      else p }

/-- The Python exception kinds the embedded pipeline can surface. -/
inductive PyErr where
  | fileNotFound
  | osError
  | extractionError
  | transcriptionError
  | writeError
  | nameError
deriving Repr, DecidableEq

/-- `output_folder.mkdir(parents=True, exist_ok=True)` (line 85), with an
injected I/O result; with `exist_ok=True`, a pre-existing folder is kept. -/
def mkdirOutput (fs : FS) (f : List Char) (ioOk : Bool) : Except PyErr FS :=
  if ¬ ioOk then .error .osError
  else if (lookupFolder fs f).isSome then .ok fs
  else .ok { fs with outFolders := fs.outFolders ++ [(f, [])] }

/-- `shutil.move(str(input_file), str(pending_path))` (line 89): raises
`FileNotFoundError` when the source is gone; when the destination name
is an existing regular file, `os.rename` silently replaces it.  `ioOk`
injects other OS-level failures (permissions, cross-device copy). -/
def moveToPending (fs : FS) (n : List Char) (ioOk : Bool) : Except PyErr FS :=
  match lookupFile fs.watch n with
  | none => .error .fileNotFound
  | some c =>
    if ¬ ioOk then .error .osError
    else .ok { fs with watch := removeFile fs.watch n,
                       pending := setFile fs.pending n c }

/-- `shutil.move(str(pending_path), str(final_media_path))` (line 127). -/
def moveToOutput (fs : FS) (n f : List Char) (ioOk : Bool) : Except PyErr FS :=
  match lookupFile fs.pending n with
  | none => .error .fileNotFound
  | some _ =>
    if ¬ ioOk then .error .osError
    else .ok (addToFolder { fs with pending := removeFile fs.pending n } f n)

/-- Lines 139-140: `if lock_file.exists(): lock_file.unlink()`. -/
def finallyCleanup (fs : FS) (lock : List Char) : FS :=
  if fs.locks.contains lock then
    { fs with locks := fs.locks.filter (fun m => m != lock) }
  else fs

/-- A location among the three configured directories. -/
inductive Dir where
  | watchDir
  | pendingDir
  | outDir (folder : List Char)
deriving Repr, DecidableEq

/-- The `stats` record collected at lines 103-113. -/
structure Stats where
  conversion_time : Nat
  transcription_time : Nat
  detected_language : List Char
  timestampIso : List Char
deriving Repr, DecidableEq

/-- Results of the external collaborators and of each fallible I/O call,
injected into one run of the handler. -/
structure Env where
  vanishDuringWait : Bool
  waitOk : Bool
  timestamp : List Char
  isoNow : List Char
  mkdirOk : Bool
  pendingMoveOk : Bool
  extractOk : Bool
  conversionElapsed : Nat
  transcribeOk : Bool
  language : Option (List Char)
  transcriptionElapsed : Nat
  writeTranscriptOk : Bool
  writeStatsOk : Bool
  finalMoveOk : Bool
deriving Repr, DecidableEq

/-- How one `on_created` invocation terminates. -/
inductive Outcome where
  | ignoredDir
  | ignoredHidden
  | unsupportedType
  | notFound
  | waitFailed
  | disappeared
  | alreadyClaimed
  | finalized (stats : Stats) (audio : Dir × List Char)
  | rolledBack (restored : Bool)
  | raised (e : PyErr)
deriving Repr, DecidableEq

/-- A filesystem creation event as delivered to the handler. -/
structure Event where
  isDirectory : Bool
  name : List Char
deriving Repr, DecidableEq

/-- The output-folder name computed at line 84:
`f"{input_file.stem}_{timestamp}"`. -/
def folderNameOf (n ts : List Char) : List Char :=
  pyStem n ++ "_".toList ++ ts

/-- The `except Exception` block (lines 132-136) for a failure raised
after `pending_path` was bound at line 88, followed by the `finally`
block: if the pending copy exists it is moved back to the original
watch path (`shutil.move`, overwriting semantics), then the lock marker
is removed. -/
def handleFailure (trace : List FS) (fs : FS) (n lock : List Char) :
    List FS × Outcome :=
  match lookupFile fs.pending n with
  | some c =>
    let fs1 : FS := { fs with pending := removeFile fs.pending n,
                              watch := setFile fs.watch n c }
    let fs2 := finallyCleanup fs1 lock
    (trace ++ [fs1, fs2], .rolledBack true)
  | none =>
    (trace ++ [finallyCleanup fs lock], .rolledBack false)

/-- `TranscriptionHandler.on_created` (lines 39-140), returning every
intermediate directory state in order (the last entry is the state when
the handler returns) together with how the invocation terminated. -/
def on_createdT (env : Env) (fs : FS) (ev : Event) : List FS × Outcome :=
  if ev.isDirectory then ([fs], .ignoredDir)
  else
    let n := ev.name
    if isHiddenName n then ([fs], .ignoredHidden)
    else if ¬ supportedExts.contains (lowerName (pySuffix n)) then
      ([fs], .unsupportedType)
    else if ¬ existsInWatch fs n then ([fs], .notFound)
    else
      -- the wait window: an external actor may move the file away
      let fs1 := if env.vanishDuringWait then
          { fs with watch := removeFile fs.watch n } else fs
      if ¬ env.waitOk then ([fs, fs1], .waitFailed)
      else if ¬ existsInWatch fs1 n then ([fs, fs1], .disappeared)
      else
        let lock := lockNameOf n
        if fs1.locks.contains lock then
          -- line 75 `return` still runs the `finally` block, which
          -- unlinks the pre-existing marker (lines 139-140)
          let fs2 := finallyCleanup fs1 lock
          ([fs, fs1, fs2], .alreadyClaimed)
        else
          let fs2 := { fs1 with locks := fs1.locks ++ [lock] }
          let folder := folderNameOf n env.timestamp
          match mkdirOutput fs2 folder env.mkdirOk with
          | .error _ =>
            -- `pending_path` (line 88) is not yet bound, so line 135 in
            -- the except block raises NameError; `finally` still runs
            let fs3 := finallyCleanup fs2 lock
            ([fs, fs1, fs2, fs3], .raised .nameError)
          | .ok fs3 =>
            match moveToPending fs3 n env.pendingMoveOk with
            | .error _ => handleFailure [fs, fs1, fs2, fs3] fs3 n lock
            | .ok fs4 =>
              let isVideo := videoExts.contains (lowerName (pySuffix n))
              if isVideo ∧ ¬ env.extractOk then
                handleFailure [fs, fs1, fs2, fs3, fs4] fs4 n lock
              else
                let fs5 := if isVideo then
                    addToFolder fs4 folder "extracted_audio.wav".toList
                  else fs4
                let audio : Dir × List Char :=
                  if isVideo then (.outDir folder, "extracted_audio.wav".toList)
                  else (.pendingDir, n)
                let convTime := if isVideo then env.conversionElapsed else 0
                if ¬ env.transcribeOk then
                  handleFailure [fs, fs1, fs2, fs3, fs4, fs5] fs5 n lock
                else
                  let stats : Stats :=
                    { conversion_time := convTime,
                      transcription_time := env.transcriptionElapsed,
                      detected_language := env.language.getD "unknown".toList,
                      timestampIso := env.isoNow }
                  if ¬ env.writeTranscriptOk then
                    handleFailure [fs, fs1, fs2, fs3, fs4, fs5] fs5 n lock
                  else
                    let fs6 := addToFolder fs5 folder "transcription.txt".toList
                    if ¬ env.writeStatsOk then
                      handleFailure [fs, fs1, fs2, fs3, fs4, fs5, fs6] fs6 n lock
                    else
                      let fs7 := addToFolder fs6 folder "stats.json".toList
                      match moveToOutput fs7 n folder env.finalMoveOk with
                      | .error _ =>
                        handleFailure [fs, fs1, fs2, fs3, fs4, fs5, fs6, fs7]
                          fs7 n lock
                      | .ok fs8 =>
                        let fs9 := finallyCleanup fs8 lock
                        ([fs, fs1, fs2, fs3, fs4, fs5, fs6, fs7, fs8, fs9],
                          .finalized stats audio)

/-- The handler as a plain state transition: final directory state and
termination of one `on_created` invocation. -/
def on_created (env : Env) (fs : FS) (ev : Event) : FS × Outcome :=
  ((on_createdT env fs ev).1.getLastD fs, (on_createdT env fs ev).2)

/-! ## Interleaved claim acquisition (lines 72-78)

Two handler invocations for the same file name running concurrently (the
design's WatchLoop dispatches one task per event; two processes watching
the same directory behave likewise).  The shared state is whether the
lock marker file exists and whether the physical media file is still in
the watch directory.  Each invocation executes, in program order, the
`lock_file.exists()` test of line 73 (one atomic read), then — when it
saw no marker — the `lock_file.touch()` of line 78 (one atomic write),
then the staging of lines 84-89.  The read and the write are separate
filesystem operations, so steps of the other invocation may fall
between them.  Staging moves the one physical file: the line-89
`shutil.move` succeeds only while the file is still in the watch
directory; for the invocation that runs it second the source is gone,
the move raises `FileNotFoundError`, and that invocation takes the
except path instead of reaching `Staged`. -/

/-- Program counter of one invocation inside the claim/stage region. -/
inductive LPC where
  | start      -- about to run the line-73 existence test
  | passed     -- saw no marker; about to run `touch` (line 78)
  | claimed    -- marker created: the Job is `Claimed`
  | staged     -- lines 84-89 done: the Job is `Staged`
  | abandoned  -- saw the marker and returned (line 75)
  | moveRaised -- the line-89 move raised (source gone): except path
deriving Repr, DecidableEq

/-- The two concurrent invocations. -/
inductive Tid where
  | A
  | B
deriving Repr, DecidableEq

/-- The atomic actions of lines 73, 78 and 84-89. -/
inductive CAct where
  | checkLock
  | touchLock
  | stage
deriving Repr, DecidableEq

/-- Shared marker and file state plus both program counters. -/
structure CState where
  lockPresent : Bool
  fileInWatch : Bool
  pcA : LPC
  pcB : LPC
deriving Repr, DecidableEq

/-- Effect of one atomic action of one invocation, `none` when that
action is not the invocation's next step.  The result is the new
(marker, file, pc) triple.  `stage` is the line-84-89 block: when the
file is still in the watch directory the `shutil.move` takes it to
pending and the Job is `Staged`; when another invocation already moved
it, line 89 raises `FileNotFoundError` and the invocation ends on the
except path. -/
def threadStep (lock file : Bool) (pc : LPC) :
    CAct → Option (Bool × Bool × LPC)
  | .checkLock =>
    if pc = .start then
      some (lock, file, if lock then .abandoned else .passed)
    else none
  | .touchLock => if pc = .passed then some (true, file, .claimed) else none
  | .stage =>
    if pc = .claimed then
      if file then some (lock, false, .staged)
      else some (lock, file, .moveRaised)
    else none

/-- One interleaving step: the scheduled invocation performs its action. -/
def cstep (s : CState) : Tid × CAct → Option CState
  | (.A, a) => (threadStep s.lockPresent s.fileInWatch s.pcA a).map
      fun r => { s with lockPresent := r.1, fileInWatch := r.2.1, pcA := r.2.2 }
  | (.B, a) => (threadStep s.lockPresent s.fileInWatch s.pcB a).map
      fun r => { s with lockPresent := r.1, fileInWatch := r.2.1, pcB := r.2.2 }

/-- Run a schedule of interleaved steps. -/
def crun (s : CState) : List (Tid × CAct) → Option CState
  | [] => some s
  | m :: ms =>
    match cstep s m with
    | none => none
    | some s2 => crun s2 ms

/-- Both invocations about to run the line-73 test, no marker yet, the
file in the watch directory. -/
def cinit : CState :=
  { lockPresent := false, fileInWatch := true, pcA := .start, pcB := .start }

/-! ## Concrete fixtures used by witnesses and counterexamples -/

/-- An environment in which every external step succeeds. -/
def envHappy : Env :=
  { vanishDuringWait := false
    waitOk := true
    timestamp := "20250101_120000".toList
    isoNow := "2025-01-01T12:00:42".toList
    mkdirOk := true
    pendingMoveOk := true
    extractOk := true
    conversionElapsed := 3
    transcribeOk := true
    language := some "en".toList
    transcriptionElapsed := 7
    writeTranscriptOk := true
    writeStatsOk := true
    finalMoveOk := true }

/-- A watch directory holding one freshly dropped video file. -/
def fsClip : FS :=
  { watch := [("clip.mp4".toList, 1)], locks := [], pending := [],
    outFolders := [] }

/-- A watch directory holding one freshly dropped audio file. -/
def fsNote : FS :=
  { watch := [("note.wav".toList, 1)], locks := [], pending := [],
    outFolders := [] }

/-- An empty directory state. -/
def fsEmpty : FS :=
  { watch := [], locks := [], pending := [], outFolders := [] }

/-- The creation event for that file. -/
def evClip : Event := { isDirectory := false, name := "clip.mp4".toList }

/-- Same, but the marker of a concurrent job for `clip.mp4` is present. -/
def fsClipLocked : FS :=
  { fsClip with locks := ["clip.mp4.processing".toList] }

/-- Same, but a stale file of the same name sits in the pending
directory. -/
def fsClipCollide : FS :=
  { fsClip with pending := [("clip.mp4".toList, 2)] }

/-! ## Theorems -/

/-! ### Name and suffix lemmas -/

theorem supported_ne_nil {n : List Char}
    (h : supportedExts.contains (lowerName (pySuffix n)) = true) : n ≠ [] := by
  rintro rfl
  exact absurd h (by decide)

theorem revSufAux_no_dot (l rest : List Char) (h : ∀ ch ∈ l, ch ≠ '.') :
    revSufAux (l ++ '.' :: rest) = some (l ++ ['.']) := by
  induction l with
  | nil => simp [revSufAux]
  | cons c t ih =>
    have hc : c ≠ '.' := h c (by simp)
    simp only [List.cons_append, revSufAux, if_neg hc, List.append_eq]
    rw [ih (fun ch hch => h ch (by simp [hch]))]
    rfl

theorem revSufAux_is_front : ∀ (l s : List Char),
    revSufAux l = some s → ∃ r, l = s ++ r := by
  intro l
  induction l with
  | nil => intro s h; simp [revSufAux] at h
  | cons c t ih =>
    intro s h
    rw [revSufAux] at h
    by_cases hc : c = '.'
    · rw [if_pos hc] at h
      injection h with h
      exact ⟨t, by rw [← h, hc]; rfl⟩
    · rw [if_neg hc] at h
      cases hs : revSufAux t with
      | none => rw [hs] at h; simp at h
      | some s2 =>
        rw [hs] at h
        simp only [Option.map_some'] at h
        injection h with h
        obtain ⟨r, hr⟩ := ih s2 hs
        exact ⟨r, by rw [← h, hr]; rfl⟩

theorem pySuffix_back (n : List Char) : ∃ t, t ++ pySuffix n = n := by
  unfold pySuffix
  cases hs : revSufAux n.reverse with
  | none => exact ⟨n, by simp⟩
  | some srev =>
    by_cases hc : 1 < srev.length ∧ srev.length < n.length
    · simp only [if_pos hc]
      obtain ⟨r, hr⟩ := revSufAux_is_front _ _ hs
      refine ⟨r.reverse, ?_⟩
      have h2 := congrArg List.reverse hr
      simpa using h2.symm
    · simp only [if_neg hc]; exact ⟨n, by simp⟩

theorem pyStem_append_pySuffix (n : List Char) : pyStem n ++ pySuffix n = n := by
  obtain ⟨t, ht⟩ := pySuffix_back n
  unfold pyStem
  generalize hs : pySuffix n = s at ht ⊢
  rw [← ht]
  have hl : (t ++ s).length - s.length = t.length := by simp
  rw [hl, List.take_left]

/-- Line 72 in closed form: the marker name is the event name followed by
`.processing`. -/
theorem lockNameOf_eq (n : List Char) :
    lockNameOf n = n ++ ".processing".toList := by
  unfold lockNameOf pyWithSuffix
  rw [← List.append_assoc, pyStem_append_pySuffix]

theorem pySuffix_of_dot_tail (pre tail : List Char) (hpre : pre ≠ [])
    (htail : tail ≠ []) (hnd : ∀ ch ∈ tail, ch ≠ '.') :
    pySuffix (pre ++ '.' :: tail) = '.' :: tail := by
  unfold pySuffix
  have hrev : (pre ++ '.' :: tail).reverse
      = tail.reverse ++ '.' :: pre.reverse := by simp
  rw [hrev, revSufAux_no_dot _ _
    (fun ch hch => hnd ch (by simpa using hch))]
  dsimp only
  have h4 : 0 < tail.length := List.length_pos.mpr htail
  have h5 : 0 < pre.length := List.length_pos.mpr hpre
  have hc : 1 < (tail.reverse ++ ['.']).length ∧
      (tail.reverse ++ ['.']).length < (pre ++ '.' :: tail).length := by
    constructor <;> simp <;> omega
  rw [if_pos hc]
  simp

theorem pySuffix_append_processing (n : List Char) (hn : n ≠ []) :
    pySuffix (n ++ ".processing".toList) = ".processing".toList := by
  have hdot : ".processing".toList = '.' :: "processing".toList := rfl
  rw [hdot]
  exact pySuffix_of_dot_tail n "processing".toList hn (by decide) (by decide)

theorem isHiddenName_append {n : List Char} (s : List Char)
    (hn : isHiddenName n = false) (hne : n ≠ []) :
    isHiddenName (n ++ s) = false := by
  cases n with
  | nil => exact absurd rfl hne
  | cons c t =>
    by_cases hc : c = '.'
    · subst hc
      simp [isHiddenName, List.isPrefixOf] at hn
    · have hgoal : ¬ ('.' = c) := fun h => hc h.symm
      simp only [List.cons_append]
      simp [isHiddenName, List.isPrefixOf, hgoal]

theorem audio_supported_not_video {s : List Char}
    (h : audioExts.contains s = true) :
    supportedExts.contains s = true ∧ videoExts.contains s = false := by
  rw [List.contains_iff_exists_mem_beq] at h
  obtain ⟨a, ha, hs⟩ := h
  have hs2 : s = a := eq_of_beq hs
  subst hs2
  simp only [audioExts] at ha
  fin_cases ha <;> decide

/-! ### Directory-listing lemmas -/

theorem lookupFile_setFile (l : List (List Char × Nat)) (n : List Char) (c : Nat) :
    lookupFile (setFile l n c) n = some c := by
  unfold lookupFile setFile removeFile
  rw [List.find?_append]
  have h : (l.filter fun p => p.1 != n).find? (fun p => p.1 == n) = none := by
    rw [List.find?_eq_none]
    intro x hx
    have h2 := (List.mem_filter.mp hx).2
    simp only [bne_iff_ne, ne_eq] at h2
    simp [h2]
  rw [h]
  simp

theorem find?_key_of_none {β : Type} (L : List (List Char × β)) (f : List Char)
    (h : (L.find? fun p => p.1 == f).map (·.2) = none) :
    (L.find? fun p => p.1 == f) = none := by
  cases hf : L.find? fun p => p.1 == f with
  | none => rfl
  | some p => rw [hf] at h; simp at h

theorem lookupFolder_append_fresh (fs : FS) (f : List Char)
    (l : List (List Char)) (hf : lookupFolder fs f = none) :
    lookupFolder { fs with outFolders := fs.outFolders ++ [(f, l)] } f
      = some l := by
  unfold lookupFolder at *
  rw [List.find?_append, find?_key_of_none _ _ hf]
  simp [List.find?]

theorem addToFolder_append_fresh (fs : FS) (f x : List Char)
    (l : List (List Char)) (hf : lookupFolder fs f = none) :
    addToFolder { fs with outFolders := fs.outFolders ++ [(f, l)] } f x
      = { fs with outFolders :=
            fs.outFolders ++ [(f, if l.contains x then l else l ++ [x])] } := by
  have hnone := find?_key_of_none _ _ hf
  rw [List.find?_eq_none] at hnone
  unfold addToFolder
  simp only [List.map_append]
  congr 1
  congr 1
  · have h2 : ∀ p ∈ fs.outFolders,
        (if p.1 == f then
          (p.1, if p.2.contains x then p.2 else p.2 ++ [x]) else p) = p := by
      intro p hp
      rw [if_neg (hnone p hp)]
    rw [List.map_congr_left h2]
    simp
  · simp


theorem wfcLoop_iff_goodFrom (samples : Nat → Option Nat)
    (timeout interval : Nat) :
    ∀ fuel k last, timeout ≤ (k + fuel) * interval →
      (wfcLoop samples timeout interval last k fuel = true ↔
        goodFrom samples timeout interval last k) := by
  intro fuel
  induction fuel with
  | zero =>
    intro k last hfuel
    rw [wfcLoop]
    simp only [Bool.false_eq_true, false_iff]
    rintro ⟨m, hkm, hmT, -⟩
    have : (k + 0) * interval ≤ m * interval :=
      Nat.mul_le_mul_right _ (by omega)
    omega
  | succ fuel ih =>
    intro k last hfuel
    rw [wfcLoop]
    by_cases hk : k * interval < timeout
    · rw [if_pos hk]
      cases hsk : samples k with
      | none =>
        simp only [Bool.false_eq_true, false_iff]
        rintro ⟨m, hkm, hmT, hsome, -⟩
        have := hsome k le_rfl hkm
        rw [hsk] at this
        simp at this
      | some sz =>
        dsimp only
        by_cases hcond : (sz : Int) = last ∧ 0 < sz
        · rw [if_pos hcond]
          simp only [true_iff]
          exact ⟨k, le_rfl, hk,
            fun j h1 h2 => by
              have : j = k := le_antisymm h2 h1
              subst this; rw [hsk]; rfl,
            sz, hsk, hcond.2, Or.inl ⟨rfl, hcond.1⟩⟩
        · rw [if_neg hcond]
          rw [ih (k + 1) (sz : Int)
            (by have : k + 1 + fuel = k + (fuel + 1) := by omega
                rw [this]; exact hfuel)]
          constructor
          · rintro ⟨m, h1m, hmT, hsome, sz', hsm, hpos, hor⟩
            rcases hor with ⟨hmk, hsz⟩ | ⟨hlt, hpair⟩
            · -- m = k + 1 and its value equals the one sampled at k:
              -- two consecutive equal samples at (k, k+1)
              subst hmk
              have hss : sz' = sz := by exact_mod_cast hsz
              refine ⟨k + 1, Nat.le_succ k, hmT, ?_, sz', hsm, hpos,
                Or.inr ⟨Nat.lt_succ_self k, ?_⟩⟩
              · intro j h1 h2
                rcases Nat.eq_or_lt_of_le h1 with rfl | hj
                · rw [hsk]; rfl
                · exact hsome j hj h2
              · simp only [Nat.add_sub_cancel]
                rw [hsk, hsm, hss]
            · refine ⟨m, by omega, hmT, ?_, sz', hsm, hpos,
                Or.inr ⟨by omega, hpair⟩⟩
              intro j h1 h2
              rcases Nat.eq_or_lt_of_le h1 with rfl | hj
              · rw [hsk]; rfl
              · exact hsome j (by omega) h2
          · rintro ⟨m, hkm, hmT, hsome, sz', hsm, hpos, hor⟩
            rcases hor with ⟨hmk, hsz⟩ | ⟨hlt, hpair⟩
            · -- m = k: that sample satisfied the success test, which the
              -- current branch just saw fail — contradiction
              exfalso
              subst hmk
              rw [hsk] at hsm
              have h : sz = sz' := by injection hsm
              subst h
              exact hcond ⟨hsz, hpos⟩
            · by_cases hm1 : m = k + 1
              · subst hm1
                have hp : samples k = samples (k + 1) := by
                  simpa using hpair
                have hs1 : samples (k + 1) = some sz := by rw [← hp, hsk]
                have hss : sz' = sz := by
                  rw [hsm] at hs1; injection hs1
                refine ⟨k + 1, le_rfl, hmT, ?_, sz, hs1, by omega,
                  Or.inl ⟨rfl, rfl⟩⟩
                intro j h1 h2
                have : j = k + 1 := by omega
                subst this; rw [hs1]; rfl
              · refine ⟨m, by omega, hmT, ?_, sz', hsm, hpos,
                  Or.inr ⟨by omega, hpair⟩⟩
                intro j h1 h2
                exact hsome j (by omega) h2
    · rw [if_neg hk]
      simp only [Bool.false_eq_true, false_iff]
      rintro ⟨m, hkm, hmT, -⟩
      have : k * interval ≤ m * interval := Nat.mul_le_mul_right _ hkm
      omega

/-- C3 — `wait_for_file_completion` returns success iff, within the
timeout, two consecutive size samples are equal and strictly positive
with the path present throughout; equivalently it returns failure exactly
when the path disappears or the timeout elapses without such a stable
pair. -/
theorem wait_for_file_completion_iff_stablyWritten
    (samples : Nat → Option Nat) (timeout interval : Nat)
    (hI : 0 < interval) :
    wait_for_file_completion samples timeout interval = true ↔
      stablyWritten samples timeout interval := by
  unfold wait_for_file_completion
  rw [wfcLoop_iff_goodFrom samples timeout interval (timeout + 1) 0 (-1)
    (by nlinarith)]
  constructor
  · rintro ⟨m, -, hmT, hsome, sz, hsm, hpos, hor⟩
    rcases hor with ⟨-, hsz⟩ | ⟨hlt, hpair⟩
    · exfalso; omega
    · exact ⟨m, sz, hlt, hmT, fun j hj => hsome j (Nat.zero_le j) hj,
        hpair, hsm, hpos⟩
  · rintro ⟨m, sz, hm, hmT, hsome, hpair, hsm, hpos⟩
    exact ⟨m, Nat.zero_le m, hmT, fun j _ hj => hsome j hj, sz, hsm, hpos,
      Or.inr ⟨hm, hpair⟩⟩

/-- Witness for C3: on a file whose size is already 5 at every poll with
`timeout = 3`, `interval = 1`, the waiter succeeds and the stability
condition holds. -/
theorem wait_for_file_completion_iff_stablyWritten_witness :
    wait_for_file_completion (fun _ => some 5) 3 1 = true ↔
      stablyWritten (fun _ => some 5) 3 1 :=
  wait_for_file_completion_iff_stablyWritten (fun _ => some 5) 3 1
    (by decide)

theorem map_addFun_append_fresh (L : List (List Char × List (List Char)))
    (f x : List Char) (X : List (List Char))
    (hf : (L.find? fun p => p.1 == f) = none) :
    ((L ++ [(f, X)]).map fun p =>
        if p.1 == f then (p.1, if p.2.contains x then p.2 else p.2 ++ [x])
        else p)
      = L ++ [(f, if X.contains x then X else X ++ [x])] := by
  rw [List.map_append]
  have h2 : ∀ p ∈ L,
      (if p.1 == f then (p.1, if p.2.contains x then p.2 else p.2 ++ [x])
       else p) = p := by
    intro p hp
    rw [if_neg (List.find?_eq_none.mp hf p hp)]
  rw [List.map_congr_left h2]
  simp

theorem find?_append_key_fresh {β : Type} (L : List (List Char × β))
    (f : List Char) (X : β)
    (hf : (L.find? fun p => p.1 == f) = none) :
    ((L ++ [(f, X)]).find? fun p => p.1 == f) = some (f, X) := by
  rw [List.find?_append, hf]
  simp

@[simp] theorem finallyCleanup_watch (fs : FS) (lock : List Char) :
    (finallyCleanup fs lock).watch = fs.watch := by
  unfold finallyCleanup; split <;> rfl

@[simp] theorem finallyCleanup_pending (fs : FS) (lock : List Char) :
    (finallyCleanup fs lock).pending = fs.pending := by
  unfold finallyCleanup; split <;> rfl

@[simp] theorem finallyCleanup_outFolders (fs : FS) (lock : List Char) :
    (finallyCleanup fs lock).outFolders = fs.outFolders := by
  unfold finallyCleanup; split <;> rfl

@[simp] theorem addToFolder_watch (fs : FS) (f x : List Char) :
    (addToFolder fs f x).watch = fs.watch := rfl

@[simp] theorem addToFolder_pending (fs : FS) (f x : List Char) :
    (addToFolder fs f x).pending = fs.pending := rfl

@[simp] theorem addToFolder_locks (fs : FS) (f x : List Char) :
    (addToFolder fs f x).locks = fs.locks := rfl

theorem addToFolder_outFolders (fs : FS) (f x : List Char) :
    (addToFolder fs f x).outFolders
      = fs.outFolders.map fun p =>
          if p.1 == f then
            (p.1, if p.2.contains x then p.2 else p.2 ++ [x])
          else p := rfl

/-! ### Claim theorems -/

/-- C1 — the claim acquisition of lines 72-78 is `exists()` followed by
`touch()`: the two operations are not atomic, and under the interleaving
in which both concurrent invocations run the line-73 test before either
runs the line-78 `touch`, both Jobs are simultaneously `Claimed` —
refuting "exactly one Job reaches Claimed".  Continuing the schedule,
only the first invocation to run lines 84-89 reaches `Staged`; the
other's `shutil.move` raises `FileNotFoundError` (the source is gone)
and it ends on the except path. -/
theorem claim_check_then_create_race :
    crun cinit
      [(.A, .checkLock), (.B, .checkLock), (.A, .touchLock),
       (.B, .touchLock)]
      = some { lockPresent := true, fileInWatch := true,
               pcA := .claimed, pcB := .claimed } ∧
    crun cinit
      [(.A, .checkLock), (.B, .checkLock), (.A, .touchLock),
       (.B, .touchLock), (.A, .stage), (.B, .stage)]
      = some { lockPresent := true, fileInWatch := false,
               pcA := .staged, pcB := .moveRaised } := by
  decide

/-- C2 — an invocation that observes an existing claim marker returns at
line 75, but that `return` runs the `finally` block of lines 137-140,
which unlinks the pre-existing marker: the abandoning invocation is not
side-effect free (the concurrent job's lock file is deleted). -/
theorem alreadyClaimed_removes_marker :
    fsClipLocked.locks = ["clip.mp4.processing".toList] ∧
    on_created envHappy fsClipLocked evClip = (fsClip, .alreadyClaimed) ∧
    fsClip.locks = [] := by
  decide

/-- C9 — when `output_folder.mkdir` (line 85) fails, the except block at
line 135 reads `pending_path`, which was never bound (line 88 was not
reached), so the handler raises `NameError` instead of returning
normally. -/
theorem mkdir_failure_raises :
    on_created { envHappy with mkdirOk := false } fsClip evClip
      = (fsClip, .raised .nameError) := by
  decide

/-- C6 (counterexample) — with `clip.mp4` (content 1) in the watch
directory and a stale `clip.mp4` (content 2) at the pending destination,
`shutil.move` does not fail: it succeeds and silently replaces the
pending file, whose old content is gone. -/
theorem moveToPending_overwrite_cex :
    moveToPending fsClipCollide "clip.mp4".toList true
      = .ok { watch := [], locks := [],
              pending := [("clip.mp4".toList, 1)], outFolders := [] } := by
  rfl

/-- C6 (amended) — the watch-to-pending move fails (`FileNotFoundError`)
exactly when the source has vanished; when the source exists it always
succeeds, placing the source's content at the pending destination and
replacing (not failing on) any file already there. -/
theorem moveToPending_amended (fs : FS) (n : List Char) :
    (lookupFile fs.watch n = none →
      moveToPending fs n true = .error .fileNotFound) ∧
    (∀ c, lookupFile fs.watch n = some c →
      moveToPending fs n true
        = .ok { fs with watch := removeFile fs.watch n,
                        pending := setFile fs.pending n c } ∧
      lookupFile (setFile fs.pending n c) n = some c) := by
  constructor
  · intro h
    unfold moveToPending
    rw [h]
  · intro c h
    refine ⟨?_, lookupFile_setFile _ _ _⟩
    unfold moveToPending
    rw [h]
    simp

/-- Witness for C6 (amended): a vanished source fails, and a source over
a colliding destination succeeds with the destination replaced. -/
theorem moveToPending_amended_witness :
    moveToPending fsEmpty "clip.mp4".toList true = .error .fileNotFound ∧
    (moveToPending fsClipCollide "clip.mp4".toList true
        = .ok { fsClipCollide with
                  watch := removeFile fsClipCollide.watch "clip.mp4".toList,
                  pending := setFile fsClipCollide.pending "clip.mp4".toList 1 } ∧
      lookupFile (setFile fsClipCollide.pending "clip.mp4".toList 1)
        "clip.mp4".toList = some 1) :=
  ⟨(moveToPending_amended _ _).1 (by decide),
   (moveToPending_amended fsClipCollide "clip.mp4".toList).2 1 (by decide)⟩

/-- C7 — an event for a directory, a hidden/dotted name, or an
unsupported extension terminates in the filter prefix of lines 40-51:
the directory state is returned unchanged (no marker, no folder, no
move) and the outcome is one of the three filter rejections. -/
theorem filter_no_side_effects (env : Env) (fs : FS) (ev : Event)
    (h : ev.isDirectory = true ∨ isHiddenName ev.name = true ∨
      supportedExts.contains (lowerName (pySuffix ev.name)) = false) :
    (on_created env fs ev).1 = fs ∧
      ((on_created env fs ev).2 = .ignoredDir ∨
       (on_created env fs ev).2 = .ignoredHidden ∨
       (on_created env fs ev).2 = .unsupportedType) := by
  unfold on_created on_createdT
  rcases h with h | h | h
  · simp [h]
  · cases hd : ev.isDirectory <;> simp [h, hd]
  · cases hd : ev.isDirectory
    · cases hh : isHiddenName ev.name
      · have h2 : lowerName (pySuffix ev.name) ∉ supportedExts := by
          simpa using h
        simp [hd, hh, h2]
      · simp [hd, hh]
    · simp [hd]

/-- Witness for C7: a `.txt` drop is rejected with the state unchanged. -/
theorem filter_no_side_effects_witness :
    (on_created envHappy fsClip
        { isDirectory := false, name := "notes.txt".toList }).1 = fsClip ∧
      ((on_created envHappy fsClip
          { isDirectory := false, name := "notes.txt".toList }).2
            = Outcome.ignoredDir ∨
       (on_created envHappy fsClip
          { isDirectory := false, name := "notes.txt".toList }).2
            = Outcome.ignoredHidden ∨
       (on_created envHappy fsClip
          { isDirectory := false, name := "notes.txt".toList }).2
            = Outcome.unsupportedType) :=
  filter_no_side_effects envHappy fsClip _ (Or.inr (Or.inr (by decide)))

/-- C10 — the lock marker created for any claimed file `n` is named
`n ++ ".processing"` (line 72); a creation event for that marker name is
rejected by the line-49 extension filter (its suffix is `.processing`),
leaving the directory state unchanged, so claiming can never spawn a
job for the marker. -/
theorem marker_event_not_processed (env : Env) (fs : FS) (n : List Char)
    (hHid : isHiddenName n = false)
    (hSup : supportedExts.contains (lowerName (pySuffix n)) = true) :
    lockNameOf n = n ++ ".processing".toList ∧
    (on_created env fs { isDirectory := false, name := lockNameOf n }).1
      = fs ∧
    (on_created env fs { isDirectory := false, name := lockNameOf n }).2
      = .unsupportedType := by
  have hne := supported_ne_nil hSup
  have hlock := lockNameOf_eq n
  have hsuf := pySuffix_append_processing n hne
  have hhid : isHiddenName (lockNameOf n) = false := by
    rw [hlock]
    exact isHiddenName_append _ hHid hne
  have hunsup :
      supportedExts.contains (lowerName (pySuffix (lockNameOf n))) = false := by
    rw [hlock, hsuf]
    decide
  have h2 : lowerName (pySuffix (lockNameOf n)) ∉ supportedExts := by
    simpa using hunsup
  refine ⟨hlock, ?_⟩
  unfold on_created on_createdT
  simp [hhid, h2]

/-- Witness for C10: the marker for `clip.mp4` is `clip.mp4.processing`,
and an event for it changes nothing. -/
theorem marker_event_not_processed_witness :
    lockNameOf "clip.mp4".toList
      = "clip.mp4".toList ++ ".processing".toList ∧
    (on_created envHappy fsClip
        { isDirectory := false,
          name := lockNameOf "clip.mp4".toList }).1 = fsClip ∧
    (on_created envHappy fsClip
        { isDirectory := false,
          name := lockNameOf "clip.mp4".toList }).2
      = .unsupportedType :=
  marker_event_not_processed envHappy fsClip "clip.mp4".toList
    (by decide) (by decide)

set_option maxHeartbeats 2000000 in
theorem staged_failure_pair (env : Env) (fs : FS) (n : List Char) (c : Nat)
    (hHid : isHiddenName n = false)
    (hSup : supportedExts.contains (lowerName (pySuffix n)) = true)
    (hW : lookupFile fs.watch n = some c)
    (hVan : env.vanishDuringWait = false)
    (hWait : env.waitOk = true)
    (hLock : fs.locks.contains (lockNameOf n) = false)
    (hMk : env.mkdirOk = true)
    (hMv : env.pendingMoveOk = true)
    (hFail : (videoExts.contains (lowerName (pySuffix n)) = true ∧ env.extractOk = false)
        ∨ env.transcribeOk = false ∨ env.writeTranscriptOk = false
        ∨ env.writeStatsOk = false ∨ env.finalMoveOk = false) :
    (on_created env fs { isDirectory := false, name := n }).2 = .rolledBack true ∧
    lookupFile (on_created env fs { isDirectory := false, name := n }).1.watch n
      = some c := by
  obtain ⟨van, wOk, ts, iso, mk, mv, ex, ce, tr, lang, te, wt, ws, fm⟩ := env
  simp only at hVan hWait hMk hMv hFail
  subst hVan hWait hMk hMv
  have hEx : existsInWatch fs n = true := by simp [existsInWatch, hW]
  unfold on_created on_createdT
  simp only [Bool.false_eq_true, if_false, hHid, hSup, hEx, hLock,
    Bool.true_eq_false, ite_true, ite_false, if_true, not_true,
    not_false_iff, mkdirOutput, lookupFolder, moveToPending, hW,
    Bool.not_true, handleFailure, lookupFile_setFile]
  cases hfold : List.find? (fun p => p.1 == folderNameOf n ts) fs.outFolders with
  | none =>
    simp only [hfold, Option.map_none', Option.isSome_none, Bool.false_eq_true,
      if_false, hW, apply_ite FS.pending, addToFolder_pending, ite_self,
      lookupFile_setFile, moveToOutput, List.cons_append, List.nil_append]
    split_ifs <;>
      simp_all [List.getLastD_cons, lookupFile_setFile]
  | some q =>
    simp only [hfold, Option.map_some', Option.isSome_some, if_true, hW,
      apply_ite FS.pending, addToFolder_pending, ite_self,
      lookupFile_setFile, moveToOutput, List.cons_append, List.nil_append]
    split_ifs <;>
      simp_all [List.getLastD_cons, lookupFile_setFile]

set_option maxHeartbeats 2000000 in
theorem staged_media_absent (env : Env) (fs : FS) (n : List Char) (c : Nat)
    (hHid : isHiddenName n = false)
    (hSup : supportedExts.contains (lowerName (pySuffix n)) = true)
    (hW : lookupFile fs.watch n = some c)
    (hVan : env.vanishDuringWait = false)
    (hWait : env.waitOk = true)
    (hLock : fs.locks.contains (lockNameOf n) = false)
    (hMk : env.mkdirOk = true)
    (hMv : env.pendingMoveOk = true)
    (hvx : videoExts.contains (lowerName (pySuffix n)) = true →
      env.extractOk = true)
    (htr : env.transcribeOk = false)
    (hFresh : lookupFolder fs (folderNameOf n env.timestamp) = none) :
    ∀ l, lookupFolder (on_created env fs { isDirectory := false, name := n }).1
        (folderNameOf n env.timestamp) = some l → n ∉ l := by
  obtain ⟨van, wOk, ts, iso, mk, mv, ex, ce, tr, lang, te, wt, ws, fm⟩ := env
  simp only at hVan hWait hMk hMv hvx htr hFresh
  subst hVan hWait hMk hMv htr
  have hEx : existsInWatch fs n = true := by simp [existsInWatch, hW]
  have hfold : List.find? (fun p => p.1 == folderNameOf n ts) fs.outFolders
      = none := by
    unfold lookupFolder at hFresh
    exact find?_key_of_none _ _ hFresh
  unfold on_created on_createdT
  simp only [Bool.false_eq_true, if_false, hHid, hSup, hEx, hLock,
    Bool.true_eq_false, ite_true, ite_false, if_true, not_true,
    not_false_iff, mkdirOutput, moveToPending, hW,
    Bool.not_true, handleFailure, lookupFile_setFile]
  simp only [lookupFolder, hfold, Option.map_none', Option.isSome_none,
    Bool.false_eq_true, if_false, apply_ite FS.pending, addToFolder_pending,
    ite_self, lookupFile_setFile, List.cons_append, List.nil_append]
  by_cases hv : videoExts.contains (lowerName (pySuffix n)) = true
  · have hex : ex = true := hvx hv
    subst hex
    have hne : n ≠ "extracted_audio.wav".toList := by
      intro he
      subst he
      exact absurd hv (by decide)
    simp only [hv, hW, lookupFile_setFile, ite_true, not_true,
      Bool.true_eq_false, Bool.not_true, Bool.not_false, and_false,
      if_false, not_false_iff, and_true, if_true, List.cons_append,
      List.nil_append, List.getLastD_cons, List.getLastD_nil,
      finallyCleanup_outFolders, addToFolder_outFolders]
    rw [map_addFun_append_fresh _ _ _ _ hfold]
    intro l hl
    rw [find?_append_key_fresh _ _ _ hfold] at hl
    simp only [Option.map_some', Option.some.injEq] at hl
    subst hl
    simpa using hne
  · simp only [hv, hW, lookupFile_setFile, ite_true, not_true, ite_false,
      Bool.true_eq_false, Bool.false_eq_true, Bool.not_true, Bool.not_false,
      and_false, false_and, if_false, not_false_iff, and_true, if_true,
      List.cons_append, List.nil_append, List.getLastD_cons,
      List.getLastD_nil, finallyCleanup_outFolders, addToFolder_outFolders]
    intro l hl
    rw [find?_append_key_fresh _ _ _ hfold] at hl
    simp only [Option.map_some', Option.some.injEq] at hl
    subst hl
    simp

/-- C4 — whenever processing fails after the move to pending (extraction,
transcription, artifact write, or final-move error), the handler catches
the error, moves the still-present pending copy back to its original
watch-directory path, and terminates as `RolledBack` without raising;
and after a transcription failure the output folder never contains the
final media copy. -/
theorem rollback_after_staging (env : Env) (fs : FS) (n : List Char) (c : Nat)
    (hHid : isHiddenName n = false)
    (hSup : supportedExts.contains (lowerName (pySuffix n)) = true)
    (hW : lookupFile fs.watch n = some c)
    (hVan : env.vanishDuringWait = false)
    (hWait : env.waitOk = true)
    (hLock : fs.locks.contains (lockNameOf n) = false)
    (hMk : env.mkdirOk = true)
    (hMv : env.pendingMoveOk = true)
    (hFail : (videoExts.contains (lowerName (pySuffix n)) = true ∧ env.extractOk = false)
        ∨ env.transcribeOk = false ∨ env.writeTranscriptOk = false
        ∨ env.writeStatsOk = false ∨ env.finalMoveOk = false) :
    (on_created env fs { isDirectory := false, name := n }).2 = .rolledBack true ∧
    lookupFile (on_created env fs { isDirectory := false, name := n }).1.watch n
      = some c ∧
    ((videoExts.contains (lowerName (pySuffix n)) = true → env.extractOk = true) →
      env.transcribeOk = false →
      lookupFolder fs (folderNameOf n env.timestamp) = none →
      ∀ l, lookupFolder (on_created env fs { isDirectory := false, name := n }).1
          (folderNameOf n env.timestamp) = some l → n ∉ l) :=
  ⟨(staged_failure_pair env fs n c hHid hSup hW hVan hWait hLock hMk hMv hFail).1,
   (staged_failure_pair env fs n c hHid hSup hW hVan hWait hLock hMk hMv hFail).2,
   fun hvx htr hFresh =>
     staged_media_absent env fs n c hHid hSup hW hVan hWait hLock hMk hMv
       hvx htr hFresh⟩

/-- Witness for C4: transcription fails on `clip.mp4`; the file is
restored to the watch directory, the outcome is `RolledBack`, and the
output folder holds no media copy. -/
theorem rollback_after_staging_witness :
    (on_created { envHappy with transcribeOk := false } fsClip
        { isDirectory := false, name := "clip.mp4".toList }).2
      = .rolledBack true ∧
    lookupFile (on_created { envHappy with transcribeOk := false } fsClip
        { isDirectory := false, name := "clip.mp4".toList }).1.watch
      "clip.mp4".toList = some 1 ∧
    ((videoExts.contains (lowerName (pySuffix "clip.mp4".toList)) = true →
        ({ envHappy with transcribeOk := false } : Env).extractOk = true) →
      ({ envHappy with transcribeOk := false } : Env).transcribeOk = false →
      lookupFolder fsClip
        (folderNameOf "clip.mp4".toList
          ({ envHappy with transcribeOk := false } : Env).timestamp) = none →
      ∀ l, lookupFolder (on_created { envHappy with transcribeOk := false }
            fsClip { isDirectory := false, name := "clip.mp4".toList }).1
          (folderNameOf "clip.mp4".toList
            ({ envHappy with transcribeOk := false } : Env).timestamp)
          = some l → "clip.mp4".toList ∉ l) :=
  rollback_after_staging { envHappy with transcribeOk := false } fsClip
    "clip.mp4".toList 1 (by decide) (by decide) (by decide) (by decide)
    (by decide) (by decide) (by decide) (by decide)
    (Or.inr (Or.inl (by decide)))

set_option maxHeartbeats 2000000 in
/-- C8 — for a non-video input (mp3/wav/m4a), extraction is skipped: the
Job finishes `Finalized` with the pending file itself as the
transcription input and `conversion_time` zero, and the output folder
holds exactly the transcript, the stats record, and the media file —
in particular no `extracted_audio.wav` artifact (that name can appear
only as the media copy itself). -/
theorem audio_skips_extraction (env : Env) (fs : FS) (n : List Char) (c : Nat)
    (hAud : audioExts.contains (lowerName (pySuffix n)) = true)
    (hHid : isHiddenName n = false)
    (hW : lookupFile fs.watch n = some c)
    (hVan : env.vanishDuringWait = false)
    (hWait : env.waitOk = true)
    (hLock : fs.locks.contains (lockNameOf n) = false)
    (hMk : env.mkdirOk = true)
    (hMv : env.pendingMoveOk = true)
    (hTr : env.transcribeOk = true)
    (hWt : env.writeTranscriptOk = true)
    (hWs : env.writeStatsOk = true)
    (hFm : env.finalMoveOk = true)
    (hFresh : lookupFolder fs (folderNameOf n env.timestamp) = none) :
    (on_created env fs { isDirectory := false, name := n }).2
      = .finalized
          { conversion_time := 0,
            transcription_time := env.transcriptionElapsed,
            detected_language := env.language.getD "unknown".toList,
            timestampIso := env.isoNow }
          (.pendingDir, n) ∧
    (∀ l, lookupFolder (on_created env fs { isDirectory := false, name := n }).1
        (folderNameOf n env.timestamp) = some l →
      l = ["transcription.txt".toList, "stats.json".toList, n] ∧
      ("extracted_audio.wav".toList ∈ l → n = "extracted_audio.wav".toList)) := by
  obtain ⟨hSup, hv⟩ := audio_supported_not_video hAud
  have hnt : n ≠ "transcription.txt".toList := by
    intro he; subst he; exact absurd hAud (by decide)
  have hns : n ≠ "stats.json".toList := by
    intro he; subst he; exact absurd hAud (by decide)
  obtain ⟨van, wOk, ts, iso, mk, mv, ex, ce, tr, lang, te, wt, ws, fm⟩ := env
  simp only at hVan hWait hMk hMv hTr hWt hWs hFm hFresh
  subst hVan hWait hMk hMv hTr hWt hWs hFm
  have hEx : existsInWatch fs n = true := by simp [existsInWatch, hW]
  have hfold : List.find? (fun p => p.1 == folderNameOf n ts) fs.outFolders
      = none := by
    unfold lookupFolder at hFresh
    exact find?_key_of_none _ _ hFresh
  have hcont : (["transcription.txt".toList,
      "stats.json".toList] : List (List Char)).contains n = false := by
    cases hc : (["transcription.txt".toList, "stats.json".toList] :
        List (List Char)).contains n
    · rfl
    · exfalso
      rw [List.contains_iff_exists_mem_beq] at hc
      obtain ⟨a, ha, hb⟩ := hc
      have hna : n = a := eq_of_beq hb
      subst hna
      simp only [List.mem_cons, List.not_mem_nil, or_false] at ha
      rcases ha with ha | ha
      · exact hnt ha
      · exact hns ha
  unfold on_created on_createdT
  simp only [Bool.false_eq_true, if_false, hHid, hSup, hEx, hLock,
    Bool.true_eq_false, ite_true, ite_false, if_true, not_true,
    not_false_iff, mkdirOutput, moveToPending, hW,
    Bool.not_true, handleFailure, lookupFile_setFile]
  simp only [lookupFolder, hfold, Option.map_none', Option.isSome_none,
    Bool.false_eq_true, if_false, apply_ite FS.pending, addToFolder_pending,
    ite_self, lookupFile_setFile, List.cons_append, List.nil_append]
  simp only [hv, hW, lookupFile_setFile, ite_true, not_true, ite_false,
    Bool.true_eq_false, Bool.false_eq_true, Bool.not_true, Bool.not_false,
    and_false, false_and, if_false, not_false_iff, and_true, if_true,
    moveToOutput, addToFolder_pending, lookupFile_setFile,
    List.cons_append, List.nil_append, List.getLastD_cons,
    List.getLastD_nil, finallyCleanup_outFolders, addToFolder_outFolders]
  refine ⟨trivial, ?_⟩
  have e1 : (([] : List (List Char)).contains "transcription.txt".toList)
      = false := rfl
  have e2 : ((["transcription.txt".toList] :
      List (List Char)).contains "stats.json".toList) = false := by decide
  rw [map_addFun_append_fresh _ _ _ _ hfold]
  simp only [e1, Bool.false_eq_true, if_false, List.nil_append]
  rw [map_addFun_append_fresh _ _ _ _ hfold]
  simp only [e2, Bool.false_eq_true, if_false, List.cons_append,
    List.nil_append]
  rw [map_addFun_append_fresh _ _ _ _ hfold]
  simp only [hcont, Bool.false_eq_true, if_false, List.cons_append,
    List.nil_append]
  intro l hl
  rw [find?_append_key_fresh _ _ _ hfold] at hl
  simp only [Option.map_some', Option.some.injEq] at hl
  subst hl
  refine ⟨rfl, ?_⟩
  intro hm
  simp only [List.mem_cons, List.not_mem_nil, or_false] at hm
  rcases hm with hm | hm | hm
  · exact absurd hm (by decide)
  · exact absurd hm (by decide)
  · exact hm.symm

/-- Witness for C8: `note.wav` is finalized with the pending file as
transcription input, zero conversion time, and exactly the three
expected entries in its output folder. -/
theorem audio_skips_extraction_witness :
    (on_created envHappy fsNote
        { isDirectory := false, name := "note.wav".toList }).2
      = .finalized
          { conversion_time := 0,
            transcription_time := envHappy.transcriptionElapsed,
            detected_language := envHappy.language.getD "unknown".toList,
            timestampIso := envHappy.isoNow }
          (.pendingDir, "note.wav".toList) ∧
    (∀ l, lookupFolder (on_created envHappy fsNote
          { isDirectory := false, name := "note.wav".toList }).1
        (folderNameOf "note.wav".toList envHappy.timestamp) = some l →
      l = ["transcription.txt".toList, "stats.json".toList,
            "note.wav".toList] ∧
      ("extracted_audio.wav".toList ∈ l →
        "note.wav".toList = "extracted_audio.wav".toList)) :=
  audio_skips_extraction envHappy fsNote "note.wav".toList 1
    (by decide) (by decide) (by decide) (by decide) (by decide) (by decide)
    (by decide) (by decide) (by decide) (by decide) (by decide) (by decide)
    (by decide)

set_option maxHeartbeats 2000000 in
/-- C5 — on the success path, at every intermediate moment of the run
(every state in the handler's trace), if the output folder contains the
final media copy then it already contains both `transcription.txt` and
`stats.json`: the two artifact writes (lines 115-123) strictly precede
the final media move (line 127). -/
theorem outputs_before_media (env : Env) (fs : FS) (n : List Char) (c : Nat)
    (hHid : isHiddenName n = false)
    (hSup : supportedExts.contains (lowerName (pySuffix n)) = true)
    (hW : lookupFile fs.watch n = some c)
    (hVan : env.vanishDuringWait = false)
    (hWait : env.waitOk = true)
    (hLock : fs.locks.contains (lockNameOf n) = false)
    (hMk : env.mkdirOk = true)
    (hMv : env.pendingMoveOk = true)
    (hExt : env.extractOk = true)
    (hTr : env.transcribeOk = true)
    (hWt : env.writeTranscriptOk = true)
    (hWs : env.writeStatsOk = true)
    (hFm : env.finalMoveOk = true)
    (hFresh : lookupFolder fs (folderNameOf n env.timestamp) = none) :
    ∀ s ∈ (on_createdT env fs { isDirectory := false, name := n }).1,
      ∀ l, lookupFolder s (folderNameOf n env.timestamp) = some l →
        n ∈ l →
        ("transcription.txt".toList ∈ l ∧ "stats.json".toList ∈ l) := by
  have hnt : n ≠ "transcription.txt".toList := by
    intro he; subst he; exact absurd hSup (by decide)
  have hns : n ≠ "stats.json".toList := by
    intro he; subst he; exact absurd hSup (by decide)
  obtain ⟨van, wOk, ts, iso, mk, mv, ex, ce, tr, lang, te, wt, ws, fm⟩ := env
  simp only at hVan hWait hMk hMv hExt hTr hWt hWs hFm hFresh
  subst hVan hWait hMk hMv hExt hTr hWt hWs hFm
  have hEx : existsInWatch fs n = true := by simp [existsInWatch, hW]
  have hfold : List.find? (fun p => p.1 == folderNameOf n ts) fs.outFolders
      = none := by
    unfold lookupFolder at hFresh
    exact find?_key_of_none _ _ hFresh
  unfold on_createdT
  simp only [Bool.false_eq_true, if_false, hHid, hSup, hEx, hLock,
    Bool.true_eq_false, ite_true, ite_false, if_true, not_true,
    not_false_iff, mkdirOutput, moveToPending, hW,
    Bool.not_true, handleFailure, lookupFile_setFile]
  simp only [lookupFolder, hfold, Option.map_none', Option.isSome_none,
    Bool.false_eq_true, if_false, apply_ite FS.pending, addToFolder_pending,
    ite_self, lookupFile_setFile, List.cons_append, List.nil_append]
  by_cases hv : videoExts.contains (lowerName (pySuffix n)) = true
  · have hne : n ≠ "extracted_audio.wav".toList := by
      intro he; subst he; exact absurd hv (by decide)
    simp only [hv, hW, lookupFile_setFile, ite_true, not_true, ite_false,
      Bool.true_eq_false, Bool.false_eq_true, Bool.not_true, Bool.not_false,
      and_false, false_and, if_false, not_false_iff, and_true, if_true,
      moveToOutput, addToFolder_pending, lookupFile_setFile,
      List.cons_append, List.nil_append, finallyCleanup_outFolders,
      addToFolder_outFolders]
    have hE1 : (([] : List (List Char)).contains
        "extracted_audio.wav".toList) = false := rfl
    have hE2 : ((["extracted_audio.wav".toList] : List (List Char)).contains
        "transcription.txt".toList) = false := by decide
    have hE3 : ((["extracted_audio.wav".toList, "transcription.txt".toList] :
        List (List Char)).contains "stats.json".toList) = false := by decide
    have hE4 : ((["extracted_audio.wav".toList, "transcription.txt".toList,
        "stats.json".toList] : List (List Char)).contains n) = false := by
      cases hc : (["extracted_audio.wav".toList, "transcription.txt".toList,
          "stats.json".toList] : List (List Char)).contains n
      · rfl
      · exfalso
        rw [List.contains_iff_exists_mem_beq] at hc
        obtain ⟨a, ha, hb⟩ := hc
        have hna : n = a := eq_of_beq hb
        subst hna
        simp only [List.mem_cons, List.not_mem_nil, or_false] at ha
        rcases ha with ha | ha | ha
        · exact hne ha
        · exact hnt ha
        · exact hns ha
    intro s hs l hl hn
    simp only [List.mem_cons, List.not_mem_nil, or_false] at hs
    rcases hs with rfl | rfl | rfl | rfl | rfl | rfl | rfl | rfl | rfl | rfl <;>
      simp only [lookupFolder, addToFolder_outFolders,
        finallyCleanup_outFolders, map_addFun_append_fresh,
        find?_append_key_fresh, hfold, hE1, hE2, hE3, hE4,
        Bool.false_eq_true, if_false, if_true, List.nil_append,
        List.cons_append, Option.map_none', Option.map_some',
        Option.some.injEq] at hl
    all_goals cases hl
    · exact absurd hn (List.not_mem_nil n)
    · exact absurd hn (List.not_mem_nil n)
    · rcases List.mem_cons.mp hn with h9 | h9
      · exact absurd h9 hne
      · exact absurd h9 (List.not_mem_nil n)
    · rcases List.mem_cons.mp hn with h9 | h9
      · exact absurd h9 hne
      · rcases List.mem_cons.mp h9 with h8 | h8
        · exact absurd h8 hnt
        · exact absurd h8 (List.not_mem_nil n)
    · rcases List.mem_cons.mp hn with h9 | h9
      · exact absurd h9 hne
      · rcases List.mem_cons.mp h9 with h8 | h8
        · exact absurd h8 hnt
        · rcases List.mem_cons.mp h8 with h7 | h7
          · exact absurd h7 hns
          · exact absurd h7 (List.not_mem_nil n)
    · exact ⟨by simp, by simp⟩
    · exact ⟨by simp, by simp⟩
  · simp only [hv, hW, lookupFile_setFile, ite_true, not_true, ite_false,
      Bool.true_eq_false, Bool.false_eq_true, Bool.not_true, Bool.not_false,
      and_false, false_and, if_false, not_false_iff, and_true, if_true,
      moveToOutput, addToFolder_pending, lookupFile_setFile,
      List.cons_append, List.nil_append, finallyCleanup_outFolders,
      addToFolder_outFolders]
    have hA1 : (([] : List (List Char)).contains
        "transcription.txt".toList) = false := rfl
    have hA2 : ((["transcription.txt".toList] : List (List Char)).contains
        "stats.json".toList) = false := by decide
    have hA3 : ((["transcription.txt".toList, "stats.json".toList] :
        List (List Char)).contains n) = false := by
      cases hc : (["transcription.txt".toList, "stats.json".toList] :
          List (List Char)).contains n
      · rfl
      · exfalso
        rw [List.contains_iff_exists_mem_beq] at hc
        obtain ⟨a, ha, hb⟩ := hc
        have hna : n = a := eq_of_beq hb
        subst hna
        simp only [List.mem_cons, List.not_mem_nil, or_false] at ha
        rcases ha with ha | ha
        · exact hnt ha
        · exact hns ha
    intro s hs l hl hn
    simp only [List.mem_cons, List.not_mem_nil, or_false] at hs
    rcases hs with rfl | rfl | rfl | rfl | rfl | rfl | rfl | rfl | rfl | rfl <;>
      simp only [lookupFolder, addToFolder_outFolders,
        finallyCleanup_outFolders, map_addFun_append_fresh,
        find?_append_key_fresh, hfold, hA1, hA2, hA3,
        Bool.false_eq_true, if_false, if_true, List.nil_append,
        List.cons_append, Option.map_none', Option.map_some',
        Option.some.injEq] at hl
    all_goals cases hl
    · exact absurd hn (List.not_mem_nil n)
    · exact absurd hn (List.not_mem_nil n)
    · exact absurd hn (List.not_mem_nil n)
    · rcases List.mem_cons.mp hn with h9 | h9
      · exact absurd h9 hnt
      · exact absurd h9 (List.not_mem_nil n)
    · rcases List.mem_cons.mp hn with h9 | h9
      · exact absurd h9 hnt
      · rcases List.mem_cons.mp h9 with h8 | h8
        · exact absurd h8 hns
        · exact absurd h8 (List.not_mem_nil n)
    · exact ⟨by simp, by simp⟩
    · exact ⟨by simp, by simp⟩

/-- Witness for C5: applying the invariant to the final state of a
successful `clip.mp4` run and its concrete folder contents. -/
theorem outputs_before_media_witness :
    "transcription.txt".toList ∈ ["extracted_audio.wav".toList,
      "transcription.txt".toList, "stats.json".toList, "clip.mp4".toList] ∧
    "stats.json".toList ∈ ["extracted_audio.wav".toList,
      "transcription.txt".toList, "stats.json".toList, "clip.mp4".toList] :=
  outputs_before_media envHappy fsClip "clip.mp4".toList 1
    (by decide) (by decide) (by decide) (by decide) (by decide) (by decide)
    (by decide) (by decide) (by decide) (by decide) (by decide) (by decide)
    (by decide) (by decide)
    { watch := [], locks := [], pending := [],
      outFolders := [("clip_20250101_120000".toList,
        ["extracted_audio.wav".toList, "transcription.txt".toList,
         "stats.json".toList, "clip.mp4".toList])] }
    (by decide)
    ["extracted_audio.wav".toList, "transcription.txt".toList,
     "stats.json".toList, "clip.mp4".toList]
    (by decide) (by decide)

end WhisperWatch
